import Mathlib

/-!
Verification development for the CryptoScout M&A target screening engine.

The embedding below translates the core pipeline of the repository —
`merge_datasets` (utils/data.py), `calculate_financial_metrics` and
`calculate_venture_score` (utils/metrics.py) — into Lean over exact
rationals.  Tables are lists of typed rows; the pandas `inf` sentinel for
`ps_ratio` is a dedicated sum type; pandas `Series.round(1)` is modelled by
round-half-to-even on rationals; `Series.median` by the usual
sort-and-take-middle (mean of the two middles for even length).
-/

namespace CryptoScout

/-- Key normalization used for joining, modelling the source's
`.str.lower().str.strip()` (data.py lines 150-151, 169, 174, 198). -/
def normalize (s : String) : String := s.toLower.trim

/-- A row of the protocol table (data.py `fetch_protocols_data`):
columns name, symbol, tvl, mcap, category, chains, primary_chain, with the
numeric columns already coerced to numbers (`pd.to_numeric(...).fillna(0)`). -/
structure Protocol where
  name : String
  symbol : String
  tvl : ℚ
  mcap : ℚ
  category : String
  chains : List String
  primary_chain : String
  deriving DecidableEq

/-- A row of the revenue/fees table (data.py `fetch_fees_data`):
columns name, symbol, total24h, total7d, total30d, numeric columns coerced
to numbers (`pd.to_numeric(...).fillna(0)`). -/
structure Fee where
  name : String
  symbol : String
  total24h : ℚ
  total7d : ℚ
  total30d : ℚ
  deriving DecidableEq

/-- A row of the merged table produced by `merge_datasets`: all protocol
columns plus the three revenue columns. -/
structure MergedRow extends Protocol where
  total24h : ℚ
  total7d : ℚ
  total30d : ℚ
  deriving DecidableEq

/-- `drop_duplicates(subset=key, keep='first')` (data.py lines 154 and 175):
keep the first row for each key value, in input order. -/
def dedupeBy {α : Type} (key : α → String) : List α → List α
  | [] => []
  | x :: xs => x :: dedupeBy key (xs.filter (fun y => !(key y == key x)))
  termination_by l => l.length
  decreasing_by
    simp_wf
    have := List.length_filter_le (fun y => !(key y == key x)) xs
    omega

/-- One output row of `merge_datasets` (data.py lines 141-214).  The
left-merge of the protocol table against the name-deduplicated fees table
with a unique join key is a per-row first-match lookup; rows left unmatched
(`merged['total24h'].isna()`, possible only when the name lookup failed,
since fee rows carry numeric revenue fields) are retried by symbol against
the symbol-deduplicated fees table, and any row still unmatched gets its
revenue fields filled with 0 (`fillna(0)`).  The protocol symbol is a
string, so the source's `pd.notna(symbol_val)` test is always true here. -/
def mergeRow (fees : List Fee) (p : Protocol) : MergedRow :=
  match (dedupeBy (fun f => normalize f.name) fees).find?
      (fun f => normalize f.name == normalize p.name) with
  | some f => ⟨p, f.total24h, f.total7d, f.total30d⟩
  | none =>
    match (dedupeBy (fun f => normalize f.symbol) fees).find?
        (fun f => normalize f.symbol == normalize p.symbol) with
    | some f => ⟨p, f.total24h, f.total7d, f.total30d⟩
    | none => ⟨p, 0, 0, 0⟩

/-- `merge_datasets(protocols_df, fees_df)` (data.py lines 141-214): the
left-merge keeps one output row per protocol row, in input order. -/
def merge_datasets (ps : List Protocol) (fees : List Fee) : List MergedRow :=
  ps.map (mergeRow fees)

/-- The `ps_ratio` column value: a finite rational or the `np.inf`
sentinel (metrics.py lines 21-25). -/
inductive PS where
  | fin (q : ℚ)
  | infty
  deriving DecidableEq

/-- `annualized_revenue` (metrics.py lines 13-17):
`np.where(df['total30d'] > 0, df['total30d'] * 12, df['total24h'] * 365)`. -/
def annualizedRevenue (r : MergedRow) : ℚ :=
  if 0 < r.total30d then r.total30d * 12 else r.total24h * 365

/-- `ps_ratio` (metrics.py lines 21-25):
`np.where(df['annualized_revenue'] > 0, df['mcap'] / df['annualized_revenue'], np.inf)`. -/
def psRat (r : MergedRow) : PS :=
  if 0 < annualizedRevenue r then PS.fin (r.mcap / annualizedRevenue r) else PS.infty

/-- `ps_ratio_calc` (metrics.py line 28): `ps_ratio` with `inf`
replaced by NaN, i.e. absent exactly where `ps_ratio` is infinite. -/
def psRatCalc (r : MergedRow) : Option ℚ :=
  match psRat r with
  | PS.fin q => some q
  | PS.infty => none

/-- Insertion step for the sort used by `median`. -/
def insertSorted (x : ℚ) : List ℚ → List ℚ
  | [] => [x]
  | y :: ys => if x ≤ y then x :: y :: ys else y :: insertSorted x ys

/-- Ascending sort of a list of rationals (insertion sort). -/
def sortQ (l : List ℚ) : List ℚ := l.foldr insertSorted []

/-- `pandas.Series.median`: sort; odd length takes the middle element,
even length the mean of the two middle elements.  (Only ever applied to a
nonempty list by the pipeline; the empty case is unused.) -/
def median (l : List ℚ) : ℚ :=
  if (sortQ l).length % 2 = 1 then
    (sortQ l).getD ((sortQ l).length / 2) 0
  else
    ((sortQ l).getD ((sortQ l).length / 2 - 1) 0 + (sortQ l).getD ((sortQ l).length / 2) 0) / 2

/-- The filtered `ps_ratio_calc` column used for the sector median
(metrics.py line 31): rows where `ps_ratio_calc` is present, strictly
positive and strictly below 1000, in input order. -/
def validPsList (rows : List MergedRow) : List ℚ :=
  rows.filterMap (fun r =>
    match psRatCalc r with
    | some q => if 0 < q ∧ q < 1000 then some q else none
    | none => none)

/-- `sector_median_ps` (metrics.py line 32): the median of the filtered
P/S values if any survive the filter, else the default 10.0. -/
def computeSectorMedian (rows : List MergedRow) : ℚ :=
  if validPsList rows = [] then 10 else median (validPsList rows)

/-- A row of the table produced by `calculate_financial_metrics`. -/
structure MetricsRow extends MergedRow where
  annualized_revenue : ℚ
  psr : PS
  psr_calc : Option ℚ
  sector_median_ps : ℚ
  fair_value : ℚ
  upside_potential : ℚ
  deriving DecidableEq

/-- One output row of `calculate_financial_metrics` given the batch
statistic `m = sector_median_ps` (metrics.py lines 5-47):
`fair_value = annualized_revenue * sector_median_ps` and
`upside_potential = np.where(mcap > 0, (fair_value - mcap) / mcap * 100, 0)`.
The fields `psr` and `psr_calc` model the source columns `ps_ratio` and
`ps_ratio_calc`. -/
def metricsRow (m : ℚ) (r : MergedRow) : MetricsRow :=
  ⟨r, annualizedRevenue r, psRat r, psRatCalc r, m,
   annualizedRevenue r * m,
   if 0 < r.mcap then ((annualizedRevenue r * m - r.mcap) / r.mcap) * 100 else 0⟩

/-- `calculate_financial_metrics` (metrics.py lines 5-47): compute the
batch median once, then extend every row. -/
def calculate_financial_metrics (rows : List MergedRow) : List MetricsRow :=
  rows.map (metricsRow (computeSectorMedian rows))

/-- Scoring weight (consts.py): `VALUATION_GAP_WEIGHT = 0.40`. -/
def VALUATION_GAP_WEIGHT : ℚ := 0.40

/-- Scoring weight (consts.py): `REVENUE_TREND_WEIGHT = 0.30`. -/
def REVENUE_TREND_WEIGHT : ℚ := 0.30

/-- Scoring weight (consts.py): `SIZE_EFFICIENCY_WEIGHT = 0.30`. -/
def SIZE_EFFICIENCY_WEIGHT : ℚ := 0.30

/-- `pandas.Series.clip(lo, hi)` on a value. -/
def clip (x lo hi : ℚ) : ℚ := max lo (min hi x)

/-- Round half to even to the nearest integer, as `numpy` rounding does. -/
def rhe (q : ℚ) : ℤ :=
  if q - (⌊q⌋ : ℚ) < 1 / 2 then ⌊q⌋
  else if 1 / 2 < q - (⌊q⌋ : ℚ) then ⌊q⌋ + 1
  else if ⌊q⌋ % 2 = 0 then ⌊q⌋ else ⌊q⌋ + 1

/-- `Series.round(1)`: round half to even at one decimal place. -/
def round1 (q : ℚ) : ℚ := ((rhe (q * 10) : ℤ) : ℚ) / 10

/-- `valuation_score` (metrics.py lines 56-60):
`((upside.clip(-100, 200) + 100) / 300) * (VALUATION_GAP_WEIGHT * 100)`. -/
def valuation_score_f (r : MetricsRow) : ℚ :=
  ((clip r.upside_potential (-100) 200 + 100) / 300) * (VALUATION_GAP_WEIGHT * 100)

/-- `daily_avg_7d` (metrics.py line 64): `total7d / 7`. -/
def dailyAvg7 (r : MetricsRow) : ℚ := r.total7d / 7

/-- `revenue_trend` (metrics.py lines 67-71):
`np.where(daily_avg_7d > 0, (total24h - daily_avg_7d) / daily_avg_7d * 100, 0)`. -/
def revenue_trend_f (r : MetricsRow) : ℚ :=
  if 0 < dailyAvg7 r then ((r.total24h - dailyAvg7 r) / dailyAvg7 r) * 100 else 0

/-- `revenue_trend_status` (metrics.py lines 74-78):
`np.where(total7d > 0, 'Calculated', 'Insufficient Data')`. -/
def trend_status_f (r : MetricsRow) : String :=
  if 0 < r.total7d then "Calculated" else "Insufficient Data"

/-- `trend_score` (metrics.py lines 81-82):
`((trend.clip(-50, 50) + 50) / 100) * (REVENUE_TREND_WEIGHT * 100)`. -/
def trend_score_f (r : MetricsRow) : ℚ :=
  ((clip (revenue_trend_f r) (-50) 50 + 50) / 100) * (REVENUE_TREND_WEIGHT * 100)

/-- The source column `tvl_mcap_ratio` (metrics.py lines 86-90):
`np.where(mcap > 0, tvl / mcap, 0)`. -/
def tvlMcapR (r : MetricsRow) : ℚ :=
  if 0 < r.mcap then r.tvl / r.mcap else 0

/-- `efficiency_score` (metrics.py lines 93-94):
`(tvl_mcap_ratio.clip(0, 10) / 10) * (SIZE_EFFICIENCY_WEIGHT * 100)`. -/
def efficiency_score_f (r : MetricsRow) : ℚ :=
  (clip (tvlMcapR r) 0 10 / 10) * (SIZE_EFFICIENCY_WEIGHT * 100)

/-- `venture_score` (metrics.py lines 97-104): sum the three sub-scores,
round to one decimal place, then clip to [0, 100]. -/
def venture_score_f (r : MetricsRow) : ℚ :=
  clip (round1 (valuation_score_f r + trend_score_f r + efficiency_score_f r)) 0 100

/-- A row of the table produced by `calculate_venture_score`.  The field
`tm_r` models the source column `tvl_mcap_ratio`. -/
structure ScoredRow extends MetricsRow where
  valuation_score : ℚ
  daily_avg_7d : ℚ
  revenue_trend : ℚ
  revenue_trend_status : String
  trend_score : ℚ
  tm_r : ℚ
  efficiency_score : ℚ
  venture_score : ℚ
  deriving DecidableEq

/-- One output row of `calculate_venture_score` (metrics.py lines 50-106). -/
def scoreRow (r : MetricsRow) : ScoredRow :=
  ⟨r, valuation_score_f r, dailyAvg7 r, revenue_trend_f r, trend_status_f r,
   trend_score_f r, tvlMcapR r, efficiency_score_f r, venture_score_f r⟩

/-- `calculate_venture_score` (metrics.py lines 50-106). -/
def calculate_venture_score (rows : List MetricsRow) : List ScoredRow :=
  rows.map scoreRow

/-- Concrete protocol row used by witnesses (spec §8, Scenario A shape). -/
def sampleProtocolA : Protocol :=
  ⟨"Foo", "FOO", 500000, 1000000, "Dexes", ["Ethereum"], "Ethereum"⟩

/-- Concrete fee row used by witnesses. -/
def sampleFeeA : Fee := ⟨"Foo", "FOO", 4000, 28000, 100000⟩

/-- Concrete merged row used by witnesses: revenue present. -/
def sampleMergedA : MergedRow := ⟨sampleProtocolA, 4000, 28000, 100000⟩

/-- Concrete merged row used by witnesses: only daily revenue
(total30d = 0, total24h = 1000). -/
def sampleMergedB : MergedRow := ⟨⟨"Bar", "BAR", 0, 0, "", [], "Unknown"⟩, 1000, 0, 0⟩

/-- Concrete merged row used by witnesses: positive mcap, no revenue. -/
def sampleMergedC : MergedRow := ⟨⟨"Baz", "BAZ", 500, 1000, "", [], "Unknown"⟩, 0, 0, 0⟩

/-- Concrete metrics row used by witnesses of the scoring stage. -/
def sampleMetricsA : MetricsRow :=
  ⟨sampleMergedA, 1200000, PS.fin (5 / 6), some (5 / 6), 5 / 6, 1000000, 0⟩

/-- Indexing commutes with `List.map`. -/
theorem get_map_idx {α β : Type} (f : α → β) (l : List α) (i : ℕ)
    (h : i < l.length) (h2 : i < (l.map f).length) :
    (l.map f).get ⟨i, h2⟩ = f (l.get ⟨i, h⟩) := by
  induction l generalizing i with
  | nil => exact absurd h (Nat.not_lt_zero i)
  | cons a t ih =>
    cases i with
    | zero => rfl
    | succ n =>
      have hh : n < t.length := by simpa using h
      have hh2 : n < (t.map f).length := by simpa using hh
      exact ih n hh hh2

/-- `find?` is unaffected by filtering with a predicate that is implied by
the search predicate. -/
theorem find?_filter {α : Type} (p q : α → Bool)
    (h : ∀ a, p a = true → q a = true) (l : List α) :
    (l.filter q).find? p = l.find? p := by
  induction l with
  | nil => rfl
  | cons a t ih =>
    rw [List.filter_cons]
    cases hq : q a with
    | true =>
      rw [if_pos rfl]
      cases hp : p a with
      | true =>
        rw [@List.find?_cons_of_pos _ p a (t.filter q) hp,
            @List.find?_cons_of_pos _ p a t hp]
      | false =>
        have hp' : ¬ p a = true := by simp [hp]
        rw [@List.find?_cons_of_neg _ p a (t.filter q) hp',
            @List.find?_cons_of_neg _ p a t hp', ih]
    | false =>
      rw [if_neg (by decide)]
      have hp' : ¬ p a = true := by
        intro hpa
        have h2 := h a hpa
        rw [h2] at hq
        exact absurd hq (by decide)
      rw [@List.find?_cons_of_neg _ p a t hp', ih]

/-- Looking up the first row with a given key is unaffected by
key-deduplication: `drop_duplicates(keep='first')` keeps exactly the row
that `find?` returns. -/
theorem find?_dedupeBy {α : Type} (key : α → String) (k : String) (l : List α) :
    (dedupeBy key l).find? (fun x => key x == k) = l.find? (fun x => key x == k) := by
  suffices H : ∀ (n : ℕ) (l : List α), l.length ≤ n →
      (dedupeBy key l).find? (fun x => key x == k) = l.find? (fun x => key x == k) from
    H l.length l le_rfl
  intro n
  induction n with
  | zero =>
    intro l hl
    have : l = [] := List.eq_nil_of_length_eq_zero (Nat.le_zero.mp hl)
    subst this
    rw [dedupeBy]
  | succ n ih =>
    intro l hl
    cases l with
    | nil => rw [dedupeBy]
    | cons x xs =>
      rw [dedupeBy]
      cases hx : (key x == k) with
      | true =>
        rw [@List.find?_cons_of_pos _ (fun x => key x == k) x
              (dedupeBy key (xs.filter (fun y => !(key y == key x)))) hx,
            @List.find?_cons_of_pos _ (fun x => key x == k) x xs hx]
      | false =>
        have hx' : ¬ (key x == k) = true := by simp [hx]
        rw [@List.find?_cons_of_neg _ (fun x => key x == k) x
              (dedupeBy key (xs.filter (fun y => !(key y == key x)))) hx',
            @List.find?_cons_of_neg _ (fun x => key x == k) x xs hx']
        have hlen : (xs.filter (fun y => !(key y == key x))).length ≤ n := by
          have := List.length_filter_le (fun y => !(key y == key x)) xs
          simp only [List.length_cons, Nat.succ_le_succ_iff] at hl
          omega
        rw [ih _ hlen]
        apply find?_filter
        intro a ha
        have hak : key a = k := by simpa [beq_iff_eq] using ha
        have hxk : key x ≠ k := by simpa [beq_iff_eq] using hx'
        simp only [Bool.not_eq_true', beq_eq_false_iff_ne, ne_eq]
        intro hcontra
        exact hxk (by rw [← hcontra]; exact hak)

/-- `mergeRow` keeps the protocol part of the row unchanged. -/
theorem mergeRow_toProtocol (fees : List Fee) (p : Protocol) :
    (mergeRow fees p).toProtocol = p := by
  unfold mergeRow
  split
  · rfl
  · split
    · rfl
    · rfl

/-- `mergeRow` on a row whose normalized name matches some fee row: the
first name-matching fee row (in input order) supplies the revenue fields. -/
theorem mergeRow_eq_name (fees : List Fee) (p : Protocol) (f : Fee)
    (hf : fees.find? (fun g => normalize g.name == normalize p.name) = some f) :
    mergeRow fees p = ⟨p, f.total24h, f.total7d, f.total30d⟩ := by
  have e1 : (dedupeBy (fun f => normalize f.name) fees).find?
      (fun f => normalize f.name == normalize p.name) = some f :=
    (find?_dedupeBy (fun f => normalize f.name) (normalize p.name) fees).trans hf
  unfold mergeRow
  rw [e1]

/-- `mergeRow` on a row with no name match but a symbol match: the first
symbol-matching fee row (in input order) supplies the revenue fields. -/
theorem mergeRow_eq_sym (fees : List Fee) (p : Protocol) (f : Fee)
    (hn : fees.find? (fun g => normalize g.name == normalize p.name) = none)
    (hf : fees.find? (fun g => normalize g.symbol == normalize p.symbol) = some f) :
    mergeRow fees p = ⟨p, f.total24h, f.total7d, f.total30d⟩ := by
  have e1 : (dedupeBy (fun f => normalize f.name) fees).find?
      (fun f => normalize f.name == normalize p.name) = none :=
    (find?_dedupeBy (fun f => normalize f.name) (normalize p.name) fees).trans hn
  have e2 : (dedupeBy (fun f => normalize f.symbol) fees).find?
      (fun f => normalize f.symbol == normalize p.symbol) = some f :=
    (find?_dedupeBy (fun f => normalize f.symbol) (normalize p.symbol) fees).trans hf
  unfold mergeRow
  rw [e1, e2]

/-- `mergeRow` on a row matched by neither pass: revenue fields default
to 0. -/
theorem mergeRow_eq_none (fees : List Fee) (p : Protocol)
    (hn : fees.find? (fun g => normalize g.name == normalize p.name) = none)
    (hs : fees.find? (fun g => normalize g.symbol == normalize p.symbol) = none) :
    mergeRow fees p = ⟨p, 0, 0, 0⟩ := by
  have e1 : (dedupeBy (fun f => normalize f.name) fees).find?
      (fun f => normalize f.name == normalize p.name) = none :=
    (find?_dedupeBy (fun f => normalize f.name) (normalize p.name) fees).trans hn
  have e2 : (dedupeBy (fun f => normalize f.symbol) fees).find?
      (fun f => normalize f.symbol == normalize p.symbol) = none :=
    (find?_dedupeBy (fun f => normalize f.symbol) (normalize p.symbol) fees).trans hs
  unfold mergeRow
  rw [e1, e2]

/-- The lower clamp bound is a lower bound of `clip`. -/
theorem le_clip (x lo hi : ℚ) : lo ≤ clip x lo hi := le_max_left lo (min hi x)

/-- The upper clamp bound is an upper bound of `clip` when the range is
nonempty. -/
theorem clip_le (x lo hi : ℚ) (h : lo ≤ hi) : clip x lo hi ≤ hi :=
  max_le h (min_le_left hi x)

/-- `clip` does not exceed any common upper bound of its input and its
lower clamp bound. -/
theorem clip_le_of (x lo hi c : ℚ) (h1 : lo ≤ c) (h2 : x ≤ c) : clip x lo hi ≤ c :=
  max_le h1 ((min_le_right hi x).trans h2)

/-- `clip` returns its input or one of the two clamp bounds. -/
theorem clip_cases (x lo hi : ℚ) :
    clip x lo hi = x ∨ clip x lo hi = lo ∨ clip x lo hi = hi := by
  unfold clip
  rcases le_total x hi with h | h
  · rw [min_eq_right h]
    rcases le_total lo x with h2 | h2
    · left
      exact max_eq_right h2
    · right
      left
      exact max_eq_left h2
  · rw [min_eq_left h]
    rcases le_total lo hi with h2 | h2
    · right
      right
      exact max_eq_right h2
    · right
      left
      exact max_eq_left h2

/-- Round-half-to-even never exceeds an integer upper bound of its
argument. -/
theorem rhe_le (q : ℚ) (n : ℤ) (h : q ≤ (n : ℚ)) : rhe q ≤ n := by
  have hfl : ⌊q⌋ ≤ n := by
    have h1 : ⌊q⌋ ≤ ⌊(n : ℚ)⌋ := Int.floor_le_floor h
    rwa [Int.floor_intCast] at h1
  unfold rhe
  split_ifs with h1 h2 h3
  · exact hfl
  all_goals
    have hq : ⌊q⌋ ≠ n := by
      intro he
      apply h1
      have h3' : (n : ℚ) ≤ q := by
        rw [← he]
        exact Int.floor_le q
      have h4 : q = (n : ℚ) := le_antisymm h h3'
      rw [h4, Int.floor_intCast]
      norm_num
  all_goals omega

/-- `round1` never exceeds an integer upper bound of its argument. -/
theorem round1_le (q : ℚ) (n : ℤ) (h : q ≤ (n : ℚ)) : round1 q ≤ (n : ℚ) := by
  have h10 : q * 10 ≤ ((n * 10 : ℤ) : ℚ) := by
    push_cast
    linarith
  have h2 : rhe (q * 10) ≤ n * 10 := rhe_le (q * 10) (n * 10) h10
  unfold round1
  rw [div_le_iff₀ (by norm_num : (0 : ℚ) < 10)]
  have h3 : ((rhe (q * 10) : ℤ) : ℚ) ≤ ((n * 10 : ℤ) : ℚ) := by exact_mod_cast h2
  push_cast at h3
  linarith

/-- The valuation sub-score is within [0, 40]. -/
theorem valuation_score_f_bounds (r : MetricsRow) :
    0 ≤ valuation_score_f r ∧ valuation_score_f r ≤ 40 := by
  have h1 := le_clip r.upside_potential (-100) 200
  have h2 := clip_le r.upside_potential (-100) 200 (by norm_num)
  have hw : VALUATION_GAP_WEIGHT * 100 = 40 := by norm_num [VALUATION_GAP_WEIGHT]
  unfold valuation_score_f
  rw [hw]
  constructor
  · linarith
  · linarith

/-- The trend sub-score is within [0, 30]. -/
theorem trend_score_f_bounds (r : MetricsRow) :
    0 ≤ trend_score_f r ∧ trend_score_f r ≤ 30 := by
  have h1 := le_clip (revenue_trend_f r) (-50) 50
  have h2 := clip_le (revenue_trend_f r) (-50) 50 (by norm_num)
  have hw : REVENUE_TREND_WEIGHT * 100 = 30 := by norm_num [REVENUE_TREND_WEIGHT]
  unfold trend_score_f
  rw [hw]
  constructor
  · linarith
  · linarith

/-- The efficiency sub-score is within [0, 30]. -/
theorem efficiency_score_f_bounds (r : MetricsRow) :
    0 ≤ efficiency_score_f r ∧ efficiency_score_f r ≤ 30 := by
  have h1 := le_clip (tvlMcapR r) 0 10
  have h2 := clip_le (tvlMcapR r) 0 10 (by norm_num)
  have hw : SIZE_EFFICIENCY_WEIGHT * 100 = 30 := by norm_num [SIZE_EFFICIENCY_WEIGHT]
  unfold efficiency_score_f
  rw [hw]
  constructor
  · linarith
  · linarith

/-- The composite score is a one-decimal value: an integer divided by 10. -/
theorem venture_score_f_decimal (r : MetricsRow) :
    ∃ m : ℤ, venture_score_f r = (m : ℚ) / 10 := by
  unfold venture_score_f
  rcases clip_cases (round1 (valuation_score_f r + trend_score_f r + efficiency_score_f r))
      0 100 with h | h | h
  · exact ⟨rhe ((valuation_score_f r + trend_score_f r + efficiency_score_f r) * 10),
      by rw [h]; rfl⟩
  · exact ⟨0, by rw [h]; norm_num⟩
  · exact ⟨1000, by rw [h]; norm_num⟩

/-- Column `annualized_revenue` of a metrics row. -/
theorem metricsRow_ann (m : ℚ) (r : MergedRow) :
    (metricsRow m r).annualized_revenue = annualizedRevenue r := rfl

/-- Column `ps_ratio` of a metrics row. -/
theorem metricsRow_psr (m : ℚ) (r : MergedRow) : (metricsRow m r).psr = psRat r := rfl

/-- Column `ps_ratio_calc` of a metrics row. -/
theorem metricsRow_psr_calc (m : ℚ) (r : MergedRow) :
    (metricsRow m r).psr_calc = psRatCalc r := rfl

/-- Column `sector_median_ps` of a metrics row. -/
theorem metricsRow_median (m : ℚ) (r : MergedRow) :
    (metricsRow m r).sector_median_ps = m := rfl

/-- Column `fair_value` of a metrics row. -/
theorem metricsRow_fair (m : ℚ) (r : MergedRow) :
    (metricsRow m r).fair_value = annualizedRevenue r * m := rfl

/-- Column `upside_potential` of a metrics row. -/
theorem metricsRow_upside (m : ℚ) (r : MergedRow) :
    (metricsRow m r).upside_potential =
      if 0 < r.mcap then ((annualizedRevenue r * m - r.mcap) / r.mcap) * 100 else 0 := rfl

/-- The input columns of a metrics row are carried through unchanged. -/
theorem metricsRow_merged (m : ℚ) (r : MergedRow) :
    (metricsRow m r).toMergedRow = r := rfl

/-- Column `valuation_score` of a scored row. -/
theorem scoreRow_valuation (r : MetricsRow) :
    (scoreRow r).valuation_score = valuation_score_f r := rfl

/-- Column `revenue_trend` of a scored row. -/
theorem scoreRow_revenue_trend (r : MetricsRow) :
    (scoreRow r).revenue_trend = revenue_trend_f r := rfl

/-- Column `revenue_trend_status` of a scored row. -/
theorem scoreRow_status (r : MetricsRow) :
    (scoreRow r).revenue_trend_status = trend_status_f r := rfl

/-- Column `trend_score` of a scored row. -/
theorem scoreRow_trend (r : MetricsRow) : (scoreRow r).trend_score = trend_score_f r := rfl

/-- Column `efficiency_score` of a scored row. -/
theorem scoreRow_eff (r : MetricsRow) :
    (scoreRow r).efficiency_score = efficiency_score_f r := rfl

/-- Column `venture_score` of a scored row. -/
theorem scoreRow_venture (r : MetricsRow) :
    (scoreRow r).venture_score = venture_score_f r := rfl

/-- Claim C1: for every protocol table P and revenue table R,
`merge_datasets(P, R)` returns a table with exactly `len(P)` rows, one row
per input protocol, in the same order as P; protocol rows are never
dropped or duplicated, even when P contains duplicate names or R is
empty, and (the functions being total) no error is raised for unmatched
rows. -/
theorem merge_row_preservation (P : List Protocol) (R : List Fee) :
    (merge_datasets P R).map MergedRow.toProtocol = P ∧
    (merge_datasets P R).length = P.length := by
  constructor
  · unfold merge_datasets
    rw [List.map_map]
    have h : MergedRow.toProtocol ∘ mergeRow R = id := by
      funext p
      exact mergeRow_toProtocol R p
    rw [h, List.map_id]
  · unfold merge_datasets
    rw [List.length_map]

/-- Claim C2: in the table produced by `merge_datasets`, a protocol row
whose normalized name equals the normalized name of some revenue row
receives total24h/total7d/total30d from the first such revenue row in
input order; a row with no name match whose normalized symbol matches
some revenue row receives the fields of the first symbol-matching revenue
row; a row matched by neither pass has all three revenue fields equal
to 0. -/
theorem merge_join_correctness (P : List Protocol) (R : List Fee) (i : ℕ)
    (h1 : i < P.length) (h2 : i < (merge_datasets P R).length) :
    (∀ f : Fee,
        R.find? (fun g => normalize g.name == normalize (P.get ⟨i, h1⟩).name) = some f →
        ((merge_datasets P R).get ⟨i, h2⟩).total24h = f.total24h ∧
        ((merge_datasets P R).get ⟨i, h2⟩).total7d = f.total7d ∧
        ((merge_datasets P R).get ⟨i, h2⟩).total30d = f.total30d) ∧
    (R.find? (fun g => normalize g.name == normalize (P.get ⟨i, h1⟩).name) = none →
      ∀ f : Fee,
        R.find? (fun g => normalize g.symbol == normalize (P.get ⟨i, h1⟩).symbol) = some f →
        ((merge_datasets P R).get ⟨i, h2⟩).total24h = f.total24h ∧
        ((merge_datasets P R).get ⟨i, h2⟩).total7d = f.total7d ∧
        ((merge_datasets P R).get ⟨i, h2⟩).total30d = f.total30d) ∧
    (R.find? (fun g => normalize g.name == normalize (P.get ⟨i, h1⟩).name) = none →
      R.find? (fun g => normalize g.symbol == normalize (P.get ⟨i, h1⟩).symbol) = none →
      ((merge_datasets P R).get ⟨i, h2⟩).total24h = 0 ∧
      ((merge_datasets P R).get ⟨i, h2⟩).total7d = 0 ∧
      ((merge_datasets P R).get ⟨i, h2⟩).total30d = 0) := by
  have hget : (merge_datasets P R).get ⟨i, h2⟩ = mergeRow R (P.get ⟨i, h1⟩) :=
    get_map_idx (mergeRow R) P i h1 h2
  refine ⟨?_, ?_, ?_⟩
  · intro f hf
    rw [hget, mergeRow_eq_name R _ f hf]
    exact ⟨rfl, rfl, rfl⟩
  · intro hn f hf
    rw [hget, mergeRow_eq_sym R _ f hn hf]
    exact ⟨rfl, rfl, rfl⟩
  · intro hn hs
    rw [hget, mergeRow_eq_none R _ hn hs]
    exact ⟨rfl, rfl, rfl⟩

/-- Witness for C2: a concrete one-row name match receives that fee row's
revenue fields. -/
theorem merge_join_correctness_witness :
    ((merge_datasets [sampleProtocolA] [sampleFeeA]).get ⟨0, by decide⟩).total24h = 4000 ∧
    ((merge_datasets [sampleProtocolA] [sampleFeeA]).get ⟨0, by decide⟩).total7d = 28000 ∧
    ((merge_datasets [sampleProtocolA] [sampleFeeA]).get ⟨0, by decide⟩).total30d = 100000 := by
  have h := (merge_join_correctness [sampleProtocolA] [sampleFeeA] 0 (by decide) (by decide)).1
    sampleFeeA (by
      apply List.find?_cons_of_pos
      simp [sampleFeeA, sampleProtocolA])
  exact ⟨h.1.trans rfl, h.2.1.trans rfl, h.2.2.trans rfl⟩

/-- Claim C6: `annualized_revenue` is `total30d * 12` when `total30d > 0`
and `total24h * 365` otherwise. -/
theorem annualized_revenue_rule (rows : List MergedRow) (i : ℕ)
    (h1 : i < rows.length) (h2 : i < (calculate_financial_metrics rows).length) :
    ((calculate_financial_metrics rows).get ⟨i, h2⟩).annualized_revenue =
      if 0 < (rows.get ⟨i, h1⟩).total30d then (rows.get ⟨i, h1⟩).total30d * 12
      else (rows.get ⟨i, h1⟩).total24h * 365 := by
  have hget : (calculate_financial_metrics rows).get ⟨i, h2⟩ =
      metricsRow (computeSectorMedian rows) (rows.get ⟨i, h1⟩) :=
    get_map_idx (metricsRow (computeSectorMedian rows)) rows i h1 h2
  rw [hget, metricsRow_ann]
  rfl

/-- Witness for C6: a row with total30d = 0 and total24h = 1000 gets
annualized_revenue = 365000 (daily fallback path). -/
theorem annualized_revenue_rule_witness :
    ((calculate_financial_metrics [sampleMergedB]).get ⟨0, by decide⟩).annualized_revenue =
      365000 := by
  have h := annualized_revenue_rule [sampleMergedB] 0 (by decide) (by decide)
  exact h.trans (by norm_num [sampleMergedB])

/-- Claim C7: `fair_value = annualized_revenue * sector_median_ps`, and
`upside_potential` is `(fair_value - mcap) / mcap * 100` when `mcap > 0`
and 0 when `mcap = 0` — the zero-mcap case is a guarded fallback. -/
theorem upside_guard_rule (rows : List MergedRow) (i : ℕ)
    (h1 : i < rows.length) (h2 : i < (calculate_financial_metrics rows).length) :
    ((calculate_financial_metrics rows).get ⟨i, h2⟩).fair_value =
      ((calculate_financial_metrics rows).get ⟨i, h2⟩).annualized_revenue *
        ((calculate_financial_metrics rows).get ⟨i, h2⟩).sector_median_ps ∧
    (0 < (rows.get ⟨i, h1⟩).mcap →
      ((calculate_financial_metrics rows).get ⟨i, h2⟩).upside_potential =
        ((((calculate_financial_metrics rows).get ⟨i, h2⟩).fair_value -
            (rows.get ⟨i, h1⟩).mcap) / (rows.get ⟨i, h1⟩).mcap) * 100) ∧
    ((rows.get ⟨i, h1⟩).mcap = 0 →
      ((calculate_financial_metrics rows).get ⟨i, h2⟩).upside_potential = 0) := by
  have hget : (calculate_financial_metrics rows).get ⟨i, h2⟩ =
      metricsRow (computeSectorMedian rows) (rows.get ⟨i, h1⟩) :=
    get_map_idx (metricsRow (computeSectorMedian rows)) rows i h1 h2
  rw [hget, metricsRow_fair, metricsRow_upside, metricsRow_ann, metricsRow_median]
  refine ⟨rfl, ?_, ?_⟩
  · intro h
    rw [if_pos h]
  · intro h
    rw [if_neg (by rw [h]; exact lt_irrefl 0)]

/-- Witness for C7: a concrete row with mcap = 0 has upside_potential 0,
and one with positive mcap gets the fair-value formula. -/
theorem upside_guard_rule_witness :
    ((calculate_financial_metrics [sampleMergedB]).get ⟨0, by decide⟩).upside_potential = 0 := by
  have h := (upside_guard_rule [sampleMergedB] 0 (by decide) (by decide)).2.2
    (by norm_num [sampleMergedB])
  exact h

/-- Claim C3: `calculate_financial_metrics` assigns every row of one
batch the same scalar `sector_median_ps`, equal to the median of the
batch's `ps_ratio` values that are finite, strictly greater than 0 and
strictly less than 1000, or equal to 10.0 when no row satisfies that
filter. -/
theorem sector_median_batch (rows : List MergedRow) :
    ∀ r ∈ calculate_financial_metrics rows,
      r.sector_median_ps =
        if rows.filterMap (fun s =>
            match psRat s with
            | PS.fin q => if 0 < q ∧ q < 1000 then some q else none
            | PS.infty => none) = [] then 10
        else median (rows.filterMap (fun s =>
            match psRat s with
            | PS.fin q => if 0 < q ∧ q < 1000 then some q else none
            | PS.infty => none)) := by
  have hfun : (fun r : MergedRow =>
      match psRatCalc r with
      | some q => if 0 < q ∧ q < 1000 then some q else none
      | none => none) = (fun s : MergedRow =>
      match psRat s with
      | PS.fin q => if 0 < q ∧ q < 1000 then some q else none
      | PS.infty => none) := by
    funext s
    unfold psRatCalc
    cases psRat s
    · rfl
    · rfl
  intro r hr
  obtain ⟨s, hs, rfl⟩ := List.mem_map.1 hr
  rw [metricsRow_median]
  unfold computeSectorMedian validPsList
  rw [hfun]

/-- Witness for C3: a concrete one-row batch whose single P/S ratio is
5/6 gets sector median 5/6. -/
theorem sector_median_batch_witness :
    ((calculate_financial_metrics [sampleMergedA]).get ⟨0, by decide⟩).sector_median_ps =
      5 / 6 := by
  have hps : psRat sampleMergedA = PS.fin (5 / 6) := by
    unfold psRat annualizedRevenue
    norm_num [sampleMergedA, sampleProtocolA]
  have hlist : List.filterMap (fun s : MergedRow =>
      match psRat s with
      | PS.fin q => if 0 < q ∧ q < 1000 then some q else none
      | PS.infty => none) [sampleMergedA] = [5 / 6] := by
    simp only [List.filterMap_cons, List.filterMap_nil, hps]
    norm_num
  have h := sector_median_batch [sampleMergedA]
    ((calculate_financial_metrics [sampleMergedA]).get ⟨0, by decide⟩)
    (List.get_mem _ _ _)
  refine h.trans ?_
  rw [hlist]
  norm_num [median, sortQ, insertSorted]

/-- Claim C4: after `calculate_financial_metrics`, `ps_ratio` is the
positive-infinity sentinel iff `annualized_revenue <= 0`; otherwise it
equals `mcap / annualized_revenue` (0 when `mcap` is 0); and the
finite-or-absent variant `ps_ratio_calc` is absent exactly where
`ps_ratio` is infinite and equals it elsewhere. -/
theorem ps_infinity_law (rows : List MergedRow) :
    ∀ r ∈ calculate_financial_metrics rows,
      (r.psr = PS.infty ↔ r.annualized_revenue ≤ 0) ∧
      (0 < r.annualized_revenue → r.psr = PS.fin (r.mcap / r.annualized_revenue)) ∧
      (0 < r.annualized_revenue → r.mcap = 0 → r.psr = PS.fin 0) ∧
      (r.psr_calc = none ↔ r.psr = PS.infty) ∧
      (∀ q : ℚ, r.psr = PS.fin q → r.psr_calc = some q) := by
  intro r hr
  obtain ⟨s, hs, rfl⟩ := List.mem_map.1 hr
  rw [metricsRow_psr, metricsRow_psr_calc, metricsRow_ann]
  have hmc : (metricsRow (computeSectorMedian rows) s).mcap = s.mcap := rfl
  rw [hmc]
  refine ⟨?_, ?_, ?_, ?_, ?_⟩
  · unfold psRat
    split_ifs with h
    · constructor
      · intro habs
        exact absurd habs (by simp)
      · intro hle
        linarith
    · exact ⟨fun _ => le_of_not_lt h, fun _ => rfl⟩
  · intro h
    unfold psRat
    rw [if_pos h]
  · intro h hm
    unfold psRat
    rw [if_pos h, hm, zero_div]
  · unfold psRatCalc
    cases psRat s
    · simp
    · simp
  · intro q hq
    unfold psRatCalc
    rw [hq]

/-- Witness for C4: a concrete row with no revenue has the infinity
sentinel and an absent finite variant. -/
theorem ps_infinity_law_witness :
    ((calculate_financial_metrics [sampleMergedC]).get ⟨0, by decide⟩).psr = PS.infty ∧
    ((calculate_financial_metrics [sampleMergedC]).get ⟨0, by decide⟩).psr_calc = none := by
  have h := ps_infinity_law [sampleMergedC]
    ((calculate_financial_metrics [sampleMergedC]).get ⟨0, by decide⟩)
    (List.get_mem _ _ _)
  have h1 : ((calculate_financial_metrics [sampleMergedC]).get ⟨0, by decide⟩).psr =
      PS.infty := by
    apply h.1.mpr
    have hg : (calculate_financial_metrics [sampleMergedC]).get ⟨0, by decide⟩ =
        metricsRow (computeSectorMedian [sampleMergedC]) sampleMergedC :=
      get_map_idx _ [sampleMergedC] 0 (by decide) (by decide)
    rw [hg, metricsRow_ann]
    norm_num [annualizedRevenue, sampleMergedC]
  exact ⟨h1, h.2.2.2.1.mpr h1⟩

/-- Claim C5: on every row, `calculate_venture_score` produces
`valuation_score` in [0, 40], `trend_score` in [0, 30],
`efficiency_score` in [0, 30] and `venture_score` in [0, 100] rounded to
one decimal place; over exact rationals every score is a (finite)
rational, so no NaN or infinity appears. -/
theorem score_boundedness (rows : List MetricsRow)
    (hpos : ∀ r ∈ rows, 0 ≤ r.tvl ∧ 0 ≤ r.mcap ∧ 0 ≤ r.total24h ∧
      0 ≤ r.total7d ∧ 0 ≤ r.total30d) :
    ∀ s ∈ calculate_venture_score rows,
      (0 ≤ s.valuation_score ∧ s.valuation_score ≤ 40) ∧
      (0 ≤ s.trend_score ∧ s.trend_score ≤ 30) ∧
      (0 ≤ s.efficiency_score ∧ s.efficiency_score ≤ 30) ∧
      (0 ≤ s.venture_score ∧ s.venture_score ≤ 100) ∧
      (∃ m : ℤ, s.venture_score = (m : ℚ) / 10) := by
  intro s hsm
  obtain ⟨r, hr, rfl⟩ := List.mem_map.1 hsm
  refine ⟨?_, ?_, ?_, ?_, ?_⟩
  · exact valuation_score_f_bounds r
  · exact trend_score_f_bounds r
  · exact efficiency_score_f_bounds r
  · exact ⟨le_clip _ 0 100, clip_le _ 0 100 (by norm_num)⟩
  · exact venture_score_f_decimal r

/-- Witness for C5: the bounds at a concrete scored row. -/
theorem score_boundedness_witness :
    (0 ≤ ((calculate_venture_score [sampleMetricsA]).get ⟨0, by decide⟩).valuation_score ∧
      ((calculate_venture_score [sampleMetricsA]).get ⟨0, by decide⟩).valuation_score ≤ 40) ∧
    (0 ≤ ((calculate_venture_score [sampleMetricsA]).get ⟨0, by decide⟩).trend_score ∧
      ((calculate_venture_score [sampleMetricsA]).get ⟨0, by decide⟩).trend_score ≤ 30) ∧
    (0 ≤ ((calculate_venture_score [sampleMetricsA]).get ⟨0, by decide⟩).efficiency_score ∧
      ((calculate_venture_score [sampleMetricsA]).get ⟨0, by decide⟩).efficiency_score ≤ 30) ∧
    (0 ≤ ((calculate_venture_score [sampleMetricsA]).get ⟨0, by decide⟩).venture_score ∧
      ((calculate_venture_score [sampleMetricsA]).get ⟨0, by decide⟩).venture_score ≤ 100) ∧
    (∃ m : ℤ,
      ((calculate_venture_score [sampleMetricsA]).get ⟨0, by decide⟩).venture_score =
        (m : ℚ) / 10) := by
  exact score_boundedness [sampleMetricsA]
    (by
      intro r hr
      rw [List.mem_singleton] at hr
      subst hr
      norm_num [sampleMetricsA, sampleMergedA, sampleProtocolA])
    ((calculate_venture_score [sampleMetricsA]).get ⟨0, by decide⟩)
    (List.get_mem _ _ _)

/-- Claim C8: the revenue trend is
`(total24h - total7d/7) / (total7d/7) * 100` when `total7d/7 > 0` and 0
otherwise; the trend status is "Insufficient Data" exactly when that
fallback applies and "Calculated" otherwise; and the trend score is the
trend clamped to [-50, 50] mapped linearly onto [0, 30]. -/
theorem revenue_trend_rule (rows : List MetricsRow) (i : ℕ)
    (h1 : i < rows.length) (h2 : i < (calculate_venture_score rows).length) :
    ((calculate_venture_score rows).get ⟨i, h2⟩).revenue_trend =
      (if 0 < (rows.get ⟨i, h1⟩).total7d / 7 then
        (((rows.get ⟨i, h1⟩).total24h - (rows.get ⟨i, h1⟩).total7d / 7) /
          ((rows.get ⟨i, h1⟩).total7d / 7)) * 100
      else 0) ∧
    (((calculate_venture_score rows).get ⟨i, h2⟩).revenue_trend_status =
        "Insufficient Data" ↔ ¬ (0 < (rows.get ⟨i, h1⟩).total7d / 7)) ∧
    (((calculate_venture_score rows).get ⟨i, h2⟩).revenue_trend_status =
        "Calculated" ↔ 0 < (rows.get ⟨i, h1⟩).total7d / 7) ∧
    ((calculate_venture_score rows).get ⟨i, h2⟩).trend_score =
      ((clip ((calculate_venture_score rows).get ⟨i, h2⟩).revenue_trend (-50) 50 + 50) /
        100) * 30 := by
  have hget : (calculate_venture_score rows).get ⟨i, h2⟩ = scoreRow (rows.get ⟨i, h1⟩) :=
    get_map_idx scoreRow rows i h1 h2
  rw [hget, scoreRow_revenue_trend, scoreRow_status, scoreRow_trend]
  have h7 : 0 < (rows.get ⟨i, h1⟩).total7d / 7 ↔ 0 < (rows.get ⟨i, h1⟩).total7d := by
    constructor
    · intro h
      linarith
    · intro h
      linarith
  refine ⟨?_, ?_, ?_, ?_⟩
  · unfold revenue_trend_f dailyAvg7
    rfl
  · unfold trend_status_f
    split_ifs with hc
    · constructor
      · intro habs
        exact absurd habs (by decide)
      · intro hneg
        exact absurd (h7.mpr hc) hneg
    · constructor
      · intro _
        exact fun hpos => hc (h7.mp hpos)
      · intro _
        rfl
  · unfold trend_status_f
    split_ifs with hc
    · exact ⟨fun _ => h7.mpr hc, fun _ => rfl⟩
    · constructor
      · intro habs
        exact absurd habs (by decide)
      · intro hpos
        exact absurd (h7.mp hpos) hc
  · unfold trend_score_f
    have hw : REVENUE_TREND_WEIGHT * 100 = 30 := by norm_num [REVENUE_TREND_WEIGHT]
    rw [hw]

/-- Witness for C8: a concrete row with total7d = 28000 and
total24h = 4000 is tagged "Calculated" and gets a flat trend mapped to a
trend score of 15. -/
theorem revenue_trend_rule_witness :
    ((calculate_venture_score [sampleMetricsA]).get ⟨0, by decide⟩).revenue_trend_status =
      "Calculated" ∧
    ((calculate_venture_score [sampleMetricsA]).get ⟨0, by decide⟩).trend_score = 15 := by
  have h := revenue_trend_rule [sampleMetricsA] 0 (by decide) (by decide)
  have h7 : 0 < (([sampleMetricsA] : List MetricsRow).get ⟨0, by decide⟩).total7d / 7 := by
    norm_num [sampleMetricsA, sampleMergedA]
  constructor
  · exact h.2.2.1.mpr h7
  · refine h.2.2.2.trans ?_
    rw [h.1, if_pos h7]
    norm_num [sampleMetricsA, sampleMergedA, clip, min_def, max_def]

/-- Claim C10: a row with positive mcap and zero annualized revenue has
fair value 0, upside exactly -100, valuation score exactly 0, and hence a
venture score of at most 60. -/
theorem zero_revenue_cap (rows : List MergedRow) (i : ℕ)
    (h1 : i < rows.length)
    (h2 : i < (calculate_financial_metrics rows).length)
    (h3 : i < (calculate_venture_score (calculate_financial_metrics rows)).length)
    (hm : 0 < (rows.get ⟨i, h1⟩).mcap)
    (ha : annualizedRevenue (rows.get ⟨i, h1⟩) = 0) :
    ((calculate_financial_metrics rows).get ⟨i, h2⟩).fair_value = 0 ∧
    ((calculate_financial_metrics rows).get ⟨i, h2⟩).upside_potential = -100 ∧
    ((calculate_venture_score (calculate_financial_metrics rows)).get
        ⟨i, h3⟩).valuation_score = 0 ∧
    ((calculate_venture_score (calculate_financial_metrics rows)).get
        ⟨i, h3⟩).venture_score ≤ 60 := by
  have hgm : (calculate_financial_metrics rows).get ⟨i, h2⟩ =
      metricsRow (computeSectorMedian rows) (rows.get ⟨i, h1⟩) :=
    get_map_idx (metricsRow (computeSectorMedian rows)) rows i h1 h2
  have hgs : (calculate_venture_score (calculate_financial_metrics rows)).get ⟨i, h3⟩ =
      scoreRow ((calculate_financial_metrics rows).get ⟨i, h2⟩) :=
    get_map_idx scoreRow (calculate_financial_metrics rows) i h2 h3
  have hup : (metricsRow (computeSectorMedian rows) (rows.get ⟨i, h1⟩)).upside_potential =
      -100 := by
    rw [metricsRow_upside, if_pos hm, ha, zero_mul, zero_sub, neg_div,
      div_self (ne_of_gt hm)]
    norm_num
  have hval : valuation_score_f (metricsRow (computeSectorMedian rows)
      (rows.get ⟨i, h1⟩)) = 0 := by
    unfold valuation_score_f
    rw [hup]
    norm_num [clip, VALUATION_GAP_WEIGHT, min_def, max_def]
  refine ⟨?_, ?_, ?_, ?_⟩
  · rw [hgm, metricsRow_fair, ha, zero_mul]
  · rw [hgm]
    exact hup
  · rw [hgs, hgm, scoreRow_valuation]
    exact hval
  · rw [hgs, hgm, scoreRow_venture]
    unfold venture_score_f
    have hts := trend_score_f_bounds (metricsRow (computeSectorMedian rows)
      (rows.get ⟨i, h1⟩))
    have hes := efficiency_score_f_bounds (metricsRow (computeSectorMedian rows)
      (rows.get ⟨i, h1⟩))
    have hsum : valuation_score_f (metricsRow (computeSectorMedian rows)
          (rows.get ⟨i, h1⟩)) +
        trend_score_f (metricsRow (computeSectorMedian rows) (rows.get ⟨i, h1⟩)) +
        efficiency_score_f (metricsRow (computeSectorMedian rows) (rows.get ⟨i, h1⟩)) ≤
        ((60 : ℤ) : ℚ) := by
      rw [hval]
      push_cast
      linarith [hts.2, hes.2]
    have hr60 := round1_le _ 60 hsum
    have hc := clip_le_of (round1 (valuation_score_f (metricsRow (computeSectorMedian rows)
          (rows.get ⟨i, h1⟩)) +
        trend_score_f (metricsRow (computeSectorMedian rows) (rows.get ⟨i, h1⟩)) +
        efficiency_score_f (metricsRow (computeSectorMedian rows) (rows.get ⟨i, h1⟩))))
      0 100 ((60 : ℤ) : ℚ) (by norm_num) hr60
    push_cast at hc
    exact hc

/-- Witness for C10: a concrete row with mcap = 1000 and no revenue. -/
theorem zero_revenue_cap_witness :
    ((calculate_financial_metrics [sampleMergedC]).get ⟨0, by decide⟩).fair_value = 0 ∧
    ((calculate_financial_metrics [sampleMergedC]).get ⟨0, by decide⟩).upside_potential =
      -100 ∧
    ((calculate_venture_score (calculate_financial_metrics [sampleMergedC])).get
        ⟨0, by decide⟩).valuation_score = 0 ∧
    ((calculate_venture_score (calculate_financial_metrics [sampleMergedC])).get
        ⟨0, by decide⟩).venture_score ≤ 60 := by
  exact zero_revenue_cap [sampleMergedC] 0 (by decide) (by decide) (by decide)
    (by norm_num [sampleMergedC])
    (by norm_num [annualizedRevenue, sampleMergedC])

end CryptoScout
